import Mathlib

/-!
# kubernetes-issues: the list-pods probe and its request statistics

A shallow embedding of `pkg/stats/stats.go` (`RequestStats`) and of the polling
loop `unPagingatedList` of `cmd/main.go`, with the properties of the design
document checked against them.

Layout
* `Float64`: Go `float64` values and arithmetic (round to nearest, ties to even).
* `Stats`: the routines of `github.com/montanaflynn/stats` that `Flush` calls,
  the percentile routine by the rules of the design document.
* `RequestStats`: the counters, the latency cache and `Flush`.
* `Driver`: `unPagingatedList` as a function of what the environment presents
  at each loop iteration.
-/

namespace K8sIssues

/-! ## Go `float64`

Finite values are the rationals they denote; every arithmetic result is rounded
to 53 significant bits, ties to even, as IEEE 754 binary64 does.  The exponent
range is not bounded (no overflow to an infinity, no gradual underflow) and zero
carries no sign; an infinity arises only from a division by zero. -/

/-- Number of halvings that bring `n` below 2, with `fuel` bounding the recursion. -/
def log2Fuel : Nat → Nat → Nat
  | 0, _ => 0
  | fuel + 1, n => if n < 2 then 0 else log2Fuel fuel (n / 2) + 1

/-- Floor of the binary logarithm of a natural number (0 at 0). -/
def natLog2 (n : Nat) : Nat := log2Fuel n n

/-- Floor of the binary logarithm of a positive rational: the binary exponent of
its leading bit. -/
def ilog2 (q : ℚ) : ℤ :=
  let a : ℤ := (natLog2 q.num.natAbs : ℤ)
  let b : ℤ := (natLog2 q.den : ℤ)
  if (2 : ℚ) ^ (a - b) ≤ q then a - b else a - b - 1

/-- Nearest integer, ties to the even neighbour. -/
def rne (t : ℚ) : ℤ :=
  let f := ⌊t⌋
  let r := t - f
  if r < 1 / 2 then f else if 1 / 2 < r then f + 1 else if f % 2 = 0 then f else f + 1

/-- Rounding of an exact result to binary64 precision: the nearest multiple of the
unit in the last place `2 ^ (e - 52)`, where `e` is the exponent of the leading bit. -/
def roundF64 (q : ℚ) : ℚ :=
  if q = 0 then 0
  else
    let u : ℚ := (2 : ℚ) ^ (ilog2 |q| - 52)
    (rne (q / u) : ℚ) * u

/-- A Go `float64`: not-a-number, an infinity with its sign, or a finite value. -/
inductive Float64 where
  | nan
  | inf (neg : Bool)
  | fin (q : ℚ)
  deriving DecidableEq

namespace Float64

/-- Conversion `float64(n)` of an integer. -/
def ofInt (n : ℤ) : Float64 := fin (roundF64 (n : ℚ))

/-- Go `x + y`. -/
def add : Float64 → Float64 → Float64
  | fin a, fin b => fin (roundF64 (a + b))
  | inf s, fin _ => inf s
  | fin _, inf s => inf s
  | inf s, inf t => if s = t then inf s else nan
  | _, _ => nan

/-- Go `x * y`. -/
def mul : Float64 → Float64 → Float64
  | fin a, fin b => fin (roundF64 (a * b))
  | inf s, fin b => if b = 0 then nan else inf (xor s (decide (b < 0)))
  | fin a, inf s => if a = 0 then nan else inf (xor s (decide (a < 0)))
  | inf s, inf t => inf (xor s t)
  | _, _ => nan

/-- Go `x / y`: `0 / 0` is not-a-number, another finite value over zero is an
infinity. -/
def div : Float64 → Float64 → Float64
  | fin a, fin b =>
      if b = 0 then (if a = 0 then nan else inf (decide (a < 0)))
      else fin (roundF64 (a / b))
  | fin _, inf _ => fin 0
  | inf s, fin b => inf (xor s (decide (b < 0)))
  | _, _ => nan

/-- Go `x - y`. -/
def sub : Float64 → Float64 → Float64
  | fin a, fin b => fin (roundF64 (a - b))
  | inf s, fin _ => inf s
  | fin _, inf s => inf (!s)
  | inf s, inf t => if s = t then nan else inf s
  | _, _ => nan

/-- Go `x < y`: false whenever an operand is not-a-number. -/
def lt : Float64 → Float64 → Bool
  | fin a, fin b => decide (a < b)
  | inf true, fin _ => true
  | inf true, inf false => true
  | fin _, inf false => true
  | _, _ => false

/-- Go `x > y`. -/
def gt (x y : Float64) : Bool := lt y x

/-- Go `x == y`: false whenever an operand is not-a-number. -/
def eq : Float64 → Float64 → Bool
  | fin a, fin b => decide (a = b)
  | inf s, inf t => decide (s = t)
  | _, _ => false

/-- Go `x <= y`. -/
def le (x y : Float64) : Bool := lt x y || eq x y

/-- Go `math.IsNaN`. -/
def isNaN : Float64 → Bool
  | nan => true
  | _ => false

/-- `math.Ceil` of a finite value, as an integer. -/
def ceil : Float64 → Option ℤ
  | fin q => some ⌈q⌉
  | _ => none

/-- `math.Floor` of a finite value, as an integer. -/
def floor : Float64 → Option ℤ
  | fin q => some ⌊q⌋
  | _ => none

end Float64

/-! ## The statistics library

`Flush` computes its figures with `github.com/montanaflynn/stats`, a dependency
that is not part of this repository.  `Min`, `Max`, `Sum`, `Mean` and `Median`
follow the published source of that package (`min.go`, `max.go`, `sum.go`,
`mean.go`, `median.go`, `util.go`, `load.go`), with `Float64Data` as a list.

The data that `LoadRawData` returns for a `[]float64` is taken to share its
elements with the slice it is given, the case in which a library routine could
change `r.latency`.  Every routine therefore returns, next to its result, the
elements of its argument as the call leaves them: a routine that sorted its
argument in place would show there.

The percentile routine is the exception: its rule differs between releases of the
package and nothing in this repository fixes a release, so it is modelled from the
design document. -/

namespace Stats

/-- The two library errors that the routines below can return. -/
inductive StatsError where
  | EmptyInputErr
  | BoundsErr
  deriving DecidableEq

/-- How a library call ends: with its `(value, err)` pair, or in the run-time
panic of a slice index out of range. -/
inductive Result where
  | ret (value : Float64) (err : Option StatsError)
  | outOfRange
  deriving DecidableEq

/-- A finished library call: its result, and the elements of the slice it was
given as they are after the call. -/
structure Call where
  result : Result
  input : List Float64
  deriving DecidableEq

/-- `LoadRawData` on a `[]float64`: the same elements, as `Float64Data`. -/
def LoadRawData (raw : List Float64) : List Float64 := raw

/-- The order of `sort.Float64s`: `x < y`, with not-a-number before every other value. -/
def sortLess (x y : Float64) : Bool := x.lt y || (x.isNaN && !y.isNaN)

/-- Relation "x may stand before y" in an ascending sort. -/
def sortLE (x y : Float64) : Prop := sortLess y x = false

instance : DecidableRel sortLE := fun x y => decEq (sortLess y x) false

/-- `sort.Float64s`, which sorts a slice in place: the elements of the slice after
the call, in ascending order (computed here by insertion). -/
def sortFloat64s (xs : List Float64) : List Float64 := xs.insertionSort sortLE

/-- `copyslice`: a new slice with the elements of the input, and the input. -/
def copyslice (input : List Float64) : List Float64 × List Float64 := (input, input)

/-- `sortedCopy`: the copy made by `copyslice`, sorted in place, and the input,
which the sort does not touch. -/
def sortedCopy (input : List Float64) : List Float64 × List Float64 :=
  ((sortFloat64s (copyslice input).1), (copyslice input).2)

/-- `Min`: the first value, replaced by each later value that is smaller; the
input is only read. -/
def Min (input : List Float64) : Call :=
  { result :=
      match input with
      | [] => .ret .nan (some .EmptyInputErr)
      | x :: xs => .ret (xs.foldl (fun m v => if v.lt m then v else m) x) none
    input := input }

/-- `Max`: the first value, replaced by each later value that is larger; the
input is only read. -/
def Max (input : List Float64) : Call :=
  { result :=
      match input with
      | [] => .ret .nan (some .EmptyInputErr)
      | x :: xs => .ret (xs.foldl (fun m v => if v.gt m then v else m) x) none
    input := input }

/-- `Sum`: the values added from left to right, starting from zero; the input is
only read. -/
def Sum (input : List Float64) : Call :=
  { result :=
      if input.length = 0 then .ret .nan (some .EmptyInputErr)
      else .ret (input.foldl Float64.add (.fin 0)) none
    input := input }

/-- The value of a call whose error is discarded (`v, _ := f(x)`). -/
def Result.value : Result → Float64
  | .ret v _ => v
  | .outOfRange => .nan

/-- `Mean`: the sum, computed by `Sum` on the input, over the length. -/
def Mean (input : List Float64) : Call :=
  if input.length = 0 then { result := .ret .nan (some .EmptyInputErr), input := input }
  else
    let s := Stats.Sum input
    { result := .ret (s.result.value.div (Float64.ofInt s.input.length)) none
      input := s.input }

/-- `Median`: the middle value of the sorted copy, or the mean of the two middle
values when the length is even. -/
def Median (input : List Float64) : Call :=
  let cs := (sortedCopy input).1
  let l := cs.length
  { result :=
      if l = 0 then .ret .nan (some .EmptyInputErr)
      else if l % 2 = 0 then .ret (Mean ((cs.drop (l / 2 - 1)).take 2)).result.value none
      else
        match cs[l / 2]? with
        | some v => .ret v none
        | none => .outOfRange
    input := (sortedCopy input).2 }

/-- Element `c[i]` of a slice for an `int` index; `none` when out of range. -/
def elemAt (cs : List Float64) (i : ℤ) : Option Float64 :=
  if i < 0 then none else cs[i.toNat]?

/-- Modelled from the spec: the rule of the percentile routine.  `Flush` calls
`Percentile` of `github.com/montanaflynn/stats`; that package is not part of this
repository and nothing in the repository fixes its version.  The design document
leaves the rule to a choice between two, "nearest-rank or standard percentile
interpolation", and takes percentiles to be "order-independent statistics over the
value set". -/
inductive PercentileRule where
  | nearestRank
  | linearInterpolation
  deriving DecidableEq

/-- Modelled from the spec: the percentile routine that `Flush` calls, which is not
part of this repository, by nearest rank: of the values in ascending order, the one
at rank `⌈percent / 100 * n⌉`, counted from one. -/
def nearestRank (cs : List Float64) (percent : Float64) : Result :=
  match ((percent.div (.fin 100)).mul (Float64.ofInt cs.length)).ceil with
  | none => .ret .nan (some .BoundsErr)
  | some k =>
    match elemAt cs (k - 1) with
    | some v => .ret v none
    | none => .ret .nan (some .BoundsErr)

/-- Modelled from the spec: the percentile routine that `Flush` calls, which is not
part of this repository, by linear interpolation: with `h = percent / 100 * (n - 1)`,
the value at position `⌊h⌋` (counted from zero) of the values in ascending order,
plus the fraction `h - ⌊h⌋` of the step to the next value. -/
def linearInterpolation (cs : List Float64) (percent : Float64) : Result :=
  let h := (percent.div (.fin 100)).mul (Float64.ofInt ((cs.length : ℤ) - 1))
  match h.floor with
  | none => .ret .nan (some .BoundsErr)
  | some lo =>
    match elemAt cs lo, elemAt cs (lo + 1) with
    | none, _ => .ret .nan (some .BoundsErr)
    | some v, none => .ret v none
    | some v, some w => .ret (v.add ((h.sub (Float64.ofInt lo)).mul (w.sub v))) none

/-- Modelled from the spec: the percentile routine that `Flush` calls, which is not
part of this repository.  It fails on empty input and on a percentage outside
`(0, 100]`, and otherwise applies its rule to a sorted copy of the input. -/
def Percentile (rule : PercentileRule) (input : List Float64) (percent : Float64) : Call :=
  { result :=
      if input.length = 0 then .ret .nan (some .EmptyInputErr)
      else if percent.le (.fin 0) || percent.gt (.fin 100) then .ret .nan (some .BoundsErr)
      else
        match rule with
        | .nearestRank => nearestRank (sortedCopy input).1 percent
        | .linearInterpolation => linearInterpolation (sortedCopy input).1 percent
    input := (sortedCopy input).2 }

end Stats

/-! ## `pkg/stats/stats.go` -/

open Stats

/-- The `*zap.Logger` a `RequestStats` writes to; what it writes is returned by
`Flush` as a list of records. -/
structure Logger where
  id : Nat
  deriving DecidableEq

/-- `RequestStats`: the logger (`none` is the nil pointer), the two counters and
the latency of every succeeded request, in seconds.  The counters are Go `int`s
(64 bits); they are counted up by one per request and are unbounded here. -/
structure RequestStats where
  lg : Option Logger
  failCnt : ℤ
  succeedCnt : ℤ
  latency : List Float64
  deriving DecidableEq

namespace RequestStats

/-- `New`: zero counters and an empty latency slice. -/
def New (lg : Option Logger) : RequestStats :=
  { lg := lg, failCnt := 0, succeedCnt := 0, latency := [] }

/-- `Add`: append one latency value. -/
def Add (r : RequestStats) (data : Float64) : RequestStats :=
  { r with latency := r.latency ++ [data] }

/-- `IncrementFailureCnt`: `r.failCnt++`. -/
def IncrementFailureCnt (r : RequestStats) : RequestStats :=
  { r with failCnt := r.failCnt + 1 }

/-- `IncrementSuccessCnt`: `r.succeedCnt++`. -/
def IncrementSuccessCnt (r : RequestStats) : RequestStats :=
  { r with succeedCnt := r.succeedCnt + 1 }

/-- `GetFailCnt`. -/
def GetFailCnt (r : RequestStats) : ℤ := r.failCnt

/-- `GetSuccessCnt`. -/
def GetSuccessCnt (r : RequestStats) : ℤ := r.succeedCnt

/-- The statistic a warning of `Flush` is about; a percentile carries the
`"percentile"` field that is logged with it. -/
inductive Stat where
  | min
  | max
  | median
  | mean
  | percentile (logged : Float64)
  deriving DecidableEq

/-- One record written by `Flush`. -/
inductive Entry where
  /-- Info `"requests stats"`. -/
  | requestsStats (totalCnt failCnt : ℤ) (failRatio : Float64) (successCnt : ℤ)
      (successRatio : Float64)
  /-- Warn `"requests stats: fail get ..."`, with the data set and the error. -/
  | failGet (stat : Stat) (dataSet : List Float64) (err : StatsError)
  /-- Info `"requests stats: latency(s)"`. -/
  | latency (min max median mean p50 p90 p99 : Float64)
  deriving DecidableEq

/-- What a call of `Flush` leaves behind: the receiver after the call, the records
written in order, and whether the call ended in a run-time panic of the library. -/
structure Flushed where
  r : RequestStats
  log : List Entry
  panicked : Bool
  deriving DecidableEq

/-- The expression `float64(cnt) / float64(r.failCnt + r.succeedCnt) * 100`. -/
def ratio (cnt total : ℤ) : Float64 :=
  ((Float64.ofInt cnt).div (Float64.ofInt total)).mul (.fin 100)

/-- The first record of `Flush`. -/
def statsEntry (r : RequestStats) : Entry :=
  .requestsStats (r.failCnt + r.succeedCnt) r.failCnt
    (ratio r.failCnt (r.failCnt + r.succeedCnt)) r.succeedCnt
    (ratio r.succeedCnt (r.failCnt + r.succeedCnt))

/-- `Flush`: nothing without a logger; otherwise the counts and ratios, then the
seven latency figures, stopping with a warning at the first library call that
returns an error.  `d` is the slice `r.latency` itself, so the receiver is left
with the elements that the last library call has left in it.  `rule` is the rule
of the percentile routine of the library. -/
def Flush (rule : PercentileRule) (r : RequestStats) : Flushed :=
  match r.lg with
  | none => ⟨r, [], false⟩
  | some _ =>
    let e := statsEntry r
    let d := LoadRawData r.latency
    let c := Stats.Min d
    let d := c.input
    match c.result with
    | .outOfRange => ⟨{ r with latency := d }, [e], true⟩
    | .ret _ (some err) => ⟨{ r with latency := d }, [e, .failGet .min d err], false⟩
    | .ret min none =>
    let c := Stats.Max d
    let d := c.input
    match c.result with
    | .outOfRange => ⟨{ r with latency := d }, [e], true⟩
    | .ret _ (some err) => ⟨{ r with latency := d }, [e, .failGet .max d err], false⟩
    | .ret max none =>
    let c := Median d
    let d := c.input
    match c.result with
    | .outOfRange => ⟨{ r with latency := d }, [e], true⟩
    | .ret _ (some err) => ⟨{ r with latency := d }, [e, .failGet .median d err], false⟩
    | .ret median none =>
    let c := Mean d
    let d := c.input
    match c.result with
    | .outOfRange => ⟨{ r with latency := d }, [e], true⟩
    | .ret _ (some err) => ⟨{ r with latency := d }, [e, .failGet .mean d err], false⟩
    | .ret avg none =>
    let c := Percentile rule d (.fin 50)
    let d := c.input
    match c.result with
    | .outOfRange => ⟨{ r with latency := d }, [e], true⟩
    | .ret _ (some err) =>
        ⟨{ r with latency := d },
          [e, .failGet (.percentile (.fin (roundF64 (1 / 2)))) d err], false⟩
    | .ret p50 none =>
    let c := Percentile rule d (.fin 90)
    let d := c.input
    match c.result with
    | .outOfRange => ⟨{ r with latency := d }, [e], true⟩
    | .ret _ (some err) =>
        ⟨{ r with latency := d },
          [e, .failGet (.percentile (.fin (roundF64 (9 / 10)))) d err], false⟩
    | .ret p90 none =>
    let c := Percentile rule d (.fin 99)
    let d := c.input
    match c.result with
    | .outOfRange => ⟨{ r with latency := d }, [e], true⟩
    | .ret _ (some err) =>
        ⟨{ r with latency := d },
          [e, .failGet (.percentile (.fin (roundF64 (99 / 100)))) d err], false⟩
    | .ret p99 none =>
      ⟨{ r with latency := d }, [e, .latency min max median avg p50 p90 p99], false⟩

end RequestStats

/-! ## `cmd/main.go`: `unPagingatedList` -/

open RequestStats

/-- `time.Second`, in the nanoseconds of a `time.Duration`. -/
def second : ℤ := 1000000000

/-- The error of a failed `List` call, as the two tests of the loop see it. -/
structure ProbeError where
  isResourceExpired : Bool
  isServerTimeout : Bool
  deriving DecidableEq

/-- What the environment presents in one loop iteration: which channels of the
`select` are ready (and the case the runtime takes when both are), the result of
the `List` call (the number of pods, or an error) and the time it took. -/
structure Tick where
  ctxDone : Bool
  stopFired : Bool
  pickStop : Bool
  result : Except ProbeError Nat
  took : ℤ

/-- A record written by the loop to its logger. -/
inductive LogMsg where
  | ctxCancelled
  | testEnds (duration : ℤ)
  | failExpired
  | failTimeout (took : ℤ)
  | failOther
  | listCompleted (cnt : ℤ) (podNumber : Nat) (took : ℤ)
  deriving DecidableEq

/-- An observable action of the loop. -/
inductive Event where
  | info (msg : LogMsg)
  | warn (msg : LogMsg)
  | list
  | sleep (d : ℤ)
  deriving DecidableEq

/-- The state the loop works on: the statistics and the actions so far. -/
structure Driver where
  r : RequestStats
  trace : List Event
  deriving DecidableEq

/-- The latency value handed to `Add`: `float64(took / time.Second)`, a division
of two `time.Duration`s (integers, truncated toward zero) converted afterwards. -/
def latencySample (took : ℤ) : Float64 := Float64.ofInt (Int.tdiv took second)

/-- The warning chosen by the `switch` on a failed call. -/
def failureMsg (err : ProbeError) (took : ℤ) : LogMsg :=
  if err.isResourceExpired then .failExpired
  else if err.isServerTimeout then .failTimeout took
  else .failOther

/-- One pass through the body of the `for` loop.  The second component is `none`
when the loop goes on to its next iteration and `some err` when the function
returns `err` (`none` for `nil`). -/
def loopBody (duration : ℤ) (t : Tick) (d : Driver) : Driver × Option (Option ProbeError) :=
  if t.ctxDone && !(t.stopFired && t.pickStop) then
    ({ d with trace := d.trace ++ [.info .ctxCancelled] }, some none)
  else if t.stopFired then
    ({ d with trace := d.trace ++ [.info (.testEnds duration)] }, some none)
  else
    match t.result with
    | .error err =>
      ({ r := d.r.IncrementFailureCnt,
         trace := d.trace ++ [.list, .warn (failureMsg err t.took)] }, none)
    | .ok pods =>
      let r := (d.r.IncrementSuccessCnt).Add (latencySample t.took)
      ({ r := r,
         trace := d.trace ++
           [.list, .info (.listCompleted r.GetSuccessCnt pods t.took), .sleep (2 * second)] },
       none)

/-- `unPagingatedList` against a script of iterations.  The result is `none` when
the script ends with the loop still running, and `some err` when the function has
returned `err`. -/
def unPagingatedList (duration : ℤ) : List Tick → Driver → Driver × Option (Option ProbeError)
  | [], d => (d, none)
  | t :: ts, d =>
    match loopBody duration t d with
    | (d', some ret) => (d', some ret)
    | (d', none) => unPagingatedList duration ts d'

/-- The `List` calls among the actions. -/
def probes (trace : List Event) : Nat := trace.count .list

/-! ## Vocabulary of the properties -/

/-- The invariant of the design document: one latency value per counted success. -/
def Inv (r : RequestStats) : Prop := (r.latency.length : ℤ) = r.succeedCnt

/-- A call of one of the three mutating methods of `RequestStats`. -/
inductive Op where
  | add (data : Float64)
  | incSuccess
  | incFailure
  deriving DecidableEq

/-- The effect of one call. -/
def applyOp (r : RequestStats) : Op → RequestStats
  | .add data => r.Add data
  | .incSuccess => r.IncrementSuccessCnt
  | .incFailure => r.IncrementFailureCnt

/-- A recording sequence: the calls applied in order. -/
def record (ops : List Op) (r : RequestStats) : RequestStats := ops.foldl applyOp r

/-- The latency values a recording sequence adds, in order. -/
def added : List Op → List Float64
  | [] => []
  | .add data :: ops => data :: added ops
  | _ :: ops => added ops

/-- The counts `(total, fail, success)` of a `"requests stats"` record. -/
def Entry.counts : Entry → Option (ℤ × ℤ × ℤ)
  | .requestsStats t f _ s _ => some (t, f, s)
  | _ => none

/-- The two ratios `(fail, success)` of a `"requests stats"` record. -/
def Entry.ratios : Entry → Option (Float64 × Float64)
  | .requestsStats _ _ fr _ sr => some (fr, sr)
  | _ => none

/-- The figures of a record of `Flush`: the record without the data set that a
warning quotes, and with or without the mean of a latency record. -/
inductive Figures where
  | requestsStats (totalCnt failCnt : ℤ) (failRatio : Float64) (successCnt : ℤ)
      (successRatio : Float64)
  | failGet (stat : Stat) (err : StatsError)
  | latency (min max median : Float64) (mean : Option Float64) (p50 p90 p99 : Float64)
  deriving DecidableEq

/-- The figures of a record, the mean among them when `withMean` is set. -/
def Entry.figures (withMean : Bool) : Entry → Figures
  | .requestsStats t f fr s sr => .requestsStats t f fr s sr
  | .failGet stat _ err => .failGet stat err
  | .latency mn mx md av a b c => .latency mn mx md (if withMean then some av else none) a b c

/-- The `mean` field of a latency record. -/
def Entry.mean : Entry → Option Float64
  | .latency _ _ _ m _ _ _ => some m
  | _ => none

/-- Whether a record is the latency record. -/
def Entry.isLatency : Entry → Bool
  | .latency _ _ _ _ _ _ _ => true
  | _ => false

/-- The whole number that a latency value denotes (0 where it denotes none). -/
def wholeSeconds : Float64 → ℕ
  | .fin q => q.num.toNat
  | _ => 0

/-- Go's literal `0.1` as a `float64` value. -/
def tenth : Float64 := .fin (roundF64 (1 / 10))

/-- Go's literal `0.2`. -/
def twoTenths : Float64 := .fin (roundF64 (2 / 10))

/-- Go's literal `0.3`. -/
def threeTenths : Float64 := .fin (roundF64 (3 / 10))

/-- The scenario of the design document: five successes with latencies 1 to 5
seconds, each recorded as the loop does, and one failure. -/
def knownDistribution (lg : Option Logger) : RequestStats :=
  record [.incSuccess, .add (.fin 1), .incSuccess, .add (.fin 2), .incSuccess, .add (.fin 3),
    .incSuccess, .add (.fin 4), .incSuccess, .add (.fin 5), .incFailure] (New lg)

/-- No `List` call follows another without a `time.Sleep` in between; `pending`
says that a call has been made since the last sleep. -/
def pausedFrom : Bool → List Event → Bool
  | _, [] => true
  | pending, .list :: es => !pending && pausedFrom true es
  | _, .sleep _ :: es => pausedFrom false es
  | pending, _ :: es => pausedFrom pending es

/-- A tick on which no channel is ready and the `List` call fails. -/
def failingTick (err : ProbeError) (took : ℤ) : Tick :=
  { ctxDone := false, stopFired := false, pickStop := false, result := .error err, took := took }

/-- A tick on which no channel is ready and the `List` call succeeds. -/
def succeedingTick (pods : Nat) (took : ℤ) : Tick :=
  { ctxDone := false, stopFired := false, pickStop := false, result := .ok pods, took := took }

/-- The driver at the start of a run. -/
def start (lg : Option Logger) : Driver := { r := New lg, trace := [] }

/-! ## Proofs -/

open Float64

/-! ### Rounding -/

theorem log2Fuel_spec (fuel n : Nat) (h : n ≤ fuel) (hn : 0 < n) :
    2 ^ log2Fuel fuel n ≤ n ∧ n < 2 ^ (log2Fuel fuel n + 1) := by
  induction fuel generalizing n with
  | zero => omega
  | succ fuel ih =>
    unfold log2Fuel
    split_ifs with h2
    · constructor <;> simp <;> omega
    · have := ih (n / 2) (by omega) (by omega)
      rw [Nat.pow_succ, Nat.pow_succ]
      rw [Nat.pow_succ] at this
      omega

theorem natLog2_spec (n : Nat) (hn : 0 < n) :
    2 ^ natLog2 n ≤ n ∧ n < 2 ^ (natLog2 n + 1) :=
  log2Fuel_spec n n le_rfl hn

theorem ilog2_le (q : ℚ) (hq : 0 < q) : (2 : ℚ) ^ ilog2 q ≤ q := by
  unfold ilog2
  dsimp only
  split_ifs with h
  · exact h
  · have hnum : 0 < q.num := Rat.num_pos.mpr hq
    have hn := (natLog2_spec q.num.natAbs (Int.natAbs_pos.mpr hnum.ne')).1
    have hd := (natLog2_spec q.den q.den_pos).2
    have hqe : q = (q.num.natAbs : ℚ) / (q.den : ℚ) := by
      have h1 : ((q.num.natAbs : ℤ) : ℚ) = (q.num : ℚ) := by
        rw [Int.natAbs_of_nonneg hnum.le]
      rw [← Int.cast_natCast, h1]
      exact (Rat.num_div_den q).symm
    have e1 : ((natLog2 q.num.natAbs : ℤ) - (natLog2 q.den : ℤ) - 1) =
        (natLog2 q.num.natAbs : ℤ) - ((natLog2 q.den + 1 : ℕ) : ℤ) := by
      push_cast; ring
    rw [e1, zpow_sub₀ (by norm_num : (2 : ℚ) ≠ 0), zpow_natCast, zpow_natCast]
    conv_rhs => rw [hqe]
    have hn' : ((2 : ℚ) ^ natLog2 q.num.natAbs) ≤ (q.num.natAbs : ℚ) := by
      exact_mod_cast hn
    have hd' : (q.den : ℚ) ≤ (2 : ℚ) ^ (natLog2 q.den + 1) := by
      exact_mod_cast hd.le
    have hdpos : (0 : ℚ) < q.den := by exact_mod_cast q.den_pos
    exact div_le_div₀ (by positivity) hn' hdpos hd'

theorem floor_le_rne (t : ℚ) : ⌊t⌋ ≤ rne t := by
  unfold rne
  dsimp only
  split_ifs <;> omega

theorem rne_intCast (z : ℤ) : rne (z : ℚ) = z := by
  unfold rne
  simp

theorem roundF64_zero : roundF64 0 = 0 := by simp [roundF64]

theorem roundF64_one : roundF64 1 = 1 := by decide!

theorem roundF64_hundred : roundF64 100 = 100 := by decide!

theorem roundF64_pos (q : ℚ) (hq : 0 < q) : 0 < roundF64 q := by
  unfold roundF64
  rw [if_neg hq.ne']
  dsimp only
  rw [abs_of_pos hq]
  have hu : (0 : ℚ) < 2 ^ (ilog2 q - 52) := by positivity
  have h1 : (1 : ℚ) ≤ q / 2 ^ (ilog2 q - 52) := by
    rw [le_div_iff₀ hu, one_mul]
    calc (2 : ℚ) ^ (ilog2 q - 52) ≤ 2 ^ ilog2 q :=
          zpow_le_zpow_right₀ (by norm_num) (by omega)
      _ ≤ q := ilog2_le q hq
  have h2 : (1 : ℤ) ≤ rne (q / 2 ^ (ilog2 q - 52)) := by
    have := floor_le_rne (q / 2 ^ (ilog2 q - 52))
    have hf : (1 : ℤ) ≤ ⌊q / 2 ^ (ilog2 q - 52)⌋ := Int.le_floor.mpr (by exact_mod_cast h1)
    omega
  have h3 : (0 : ℚ) < (rne (q / 2 ^ (ilog2 q - 52)) : ℚ) := by exact_mod_cast h2
  positivity

theorem roundF64_of_int_quot (q : ℚ) (hq : q ≠ 0) (z : ℤ)
    (hz : q / (2 : ℚ) ^ (ilog2 |q| - 52) = (z : ℚ)) : roundF64 q = q := by
  unfold roundF64
  rw [if_neg hq]
  dsimp only
  rw [hz, rne_intCast, ← hz]
  have hu : (2 : ℚ) ^ (ilog2 |q| - 52) ≠ 0 := by positivity
  field_simp

theorem roundF64_natCast (k : ℕ) (hk : k ≤ 2 ^ 53) : roundF64 (k : ℚ) = (k : ℚ) := by
  rcases Nat.eq_zero_or_pos k with rfl | hpos
  · simp [roundF64]
  have hq : (0 : ℚ) < (k : ℚ) := by exact_mod_cast hpos
  have habs : |(k : ℚ)| = (k : ℚ) := abs_of_pos hq
  have hle := ilog2_le (k : ℚ) hq
  have hk' : (k : ℚ) ≤ (2 : ℚ) ^ (53 : ℤ) := by
    have h1 : ((k : ℕ) : ℚ) ≤ ((2 ^ 53 : ℕ) : ℚ) := by exact_mod_cast hk
    have h2 : ((2 ^ 53 : ℕ) : ℚ) = (2 : ℚ) ^ (53 : ℤ) := by norm_num
    rw [h2] at h1
    exact h1
  have he : ilog2 (k : ℚ) ≤ 53 := by
    have h2 : (2 : ℚ) ^ ilog2 (k : ℚ) ≤ (2 : ℚ) ^ (53 : ℤ) := hle.trans hk'
    exact (zpow_le_zpow_iff_right₀ (by norm_num : (1 : ℚ) < 2)).mp h2
  rcases lt_or_eq_of_le he with hlt | heq
  · obtain ⟨m, hm⟩ := Int.eq_ofNat_of_zero_le (by omega : (0 : ℤ) ≤ 52 - ilog2 (k : ℚ))
    have hexp : ilog2 (k : ℚ) - 52 = -(m : ℤ) := by omega
    apply roundF64_of_int_quot (k : ℚ) hq.ne' ((k * 2 ^ m : ℕ) : ℤ)
    rw [habs, hexp, zpow_neg, zpow_natCast, div_inv_eq_mul]
    push_cast
    ring
  · have hk2 : k = 2 ^ 53 := by
      rw [heq] at hle
      have h2 : ((2 ^ 53 : ℕ) : ℚ) = (2 : ℚ) ^ (53 : ℤ) := by norm_num
      rw [← h2] at hle
      have h3 : 2 ^ 53 ≤ k := by exact_mod_cast hle
      omega
    apply roundF64_of_int_quot (k : ℚ) hq.ne' ((2 ^ 52 : ℕ) : ℤ)
    rw [habs, heq, hk2]
    norm_num


theorem inv_new (lg : Option Logger) : Inv (New lg) := by simp [Inv, New]

theorem inv_incFailure (r : RequestStats) (h : Inv r) : Inv r.IncrementFailureCnt := by
  simpa [Inv, IncrementFailureCnt] using h

theorem inv_success (r : RequestStats) (x : Float64) (h : Inv r) :
    Inv ((r.IncrementSuccessCnt).Add x) := by
  simp only [Inv, IncrementSuccessCnt, RequestStats.Add, List.length_append,
    List.length_singleton] at h ⊢
  push_cast
  omega

theorem inv_loopBody (duration : ℤ) (t : Tick) (d : Driver) (h : Inv d.r) :
    Inv (loopBody duration t d).1.r := by
  unfold loopBody
  split_ifs
  · exact h
  · exact h
  · split
    · exact inv_incFailure _ h
    · exact inv_success _ _ h

theorem inv_run (duration : ℤ) (script : List Tick) (d : Driver) (h : Inv d.r) :
    Inv (unPagingatedList duration script d).1.r := by
  induction script generalizing d with
  | nil => exact h
  | cons t ts ih =>
    have hb := inv_loopBody duration t d h
    unfold unPagingatedList
    split
    · next d' ret heq => rw [heq] at hb; exact hb
    · next d' heq => rw [heq] at hb; exact ih d' hb


/-- C1 (counterexample): `Add` alone, or `IncrementSuccessCnt` alone, takes a
state that satisfies `len(latency) == succeedCnt` to one that does not. -/
theorem add_alone_breaks_invariant :
    Inv (New none) ∧ ¬ Inv ((New none).Add (.fin 1)) ∧ ¬ Inv (New none).IncrementSuccessCnt := by
  simp [Inv, New, RequestStats.Add, IncrementSuccessCnt]

/-- C1 (as amended): `len(latency) == succeedCnt` holds for the state returned by
`New`, is preserved by `IncrementFailureCnt` and by `IncrementSuccessCnt` followed
by `Add` (the way the loop records a success), and so holds after every iteration
of `unPagingatedList`, for every sequence of successful and failed probes. -/
theorem invariant_holds_at_every_iteration (lg : Option Logger) :
    Inv (New lg) ∧
    (∀ r, Inv r → Inv r.IncrementFailureCnt) ∧
    (∀ r x, Inv r → Inv ((r.IncrementSuccessCnt).Add x)) ∧
    (∀ duration script d, Inv d.r → Inv (unPagingatedList duration script d).1.r) ∧
    (∀ duration script, Inv (unPagingatedList duration script (start lg)).1.r) :=
  ⟨inv_new lg, inv_incFailure, inv_success, inv_run,
    fun duration script => inv_run duration script (start lg) (inv_new lg)⟩

/-- C1 (witness): the three preservation statements at the fresh state, the last
one over a run of one success and one server timeout. -/
theorem invariant_holds_at_every_iteration_witness :
    Inv (New none).IncrementFailureCnt ∧
    Inv (((New none).IncrementSuccessCnt).Add (.fin 1)) ∧
    Inv (unPagingatedList 0 [succeedingTick 3 second, failingTick ⟨false, true⟩ 5]
      (start none)).1.r :=
  ⟨(invariant_holds_at_every_iteration none).2.1 (New none) (by simp [Inv, New]),
   (invariant_holds_at_every_iteration none).2.2.1 (New none) (.fin 1) (by simp [Inv, New]),
   (invariant_holds_at_every_iteration none).2.2.2.1 0 _ (start none)
     (by simp [Inv, New, start])⟩

/-! ### The loop -/

theorem loopBody_ret (duration : ℤ) (t : Tick) (d : Driver) :
    (loopBody duration t d).2 = none ∨ (loopBody duration t d).2 = some none := by
  unfold loopBody
  split_ifs
  · exact Or.inr rfl
  · exact Or.inr rfl
  · split
    · exact Or.inl rfl
    · exact Or.inl rfl

theorem loopBody_signal (duration : ℤ) (t : Tick) (d : Driver)
    (h : t.ctxDone = true ∨ t.stopFired = true) :
    (loopBody duration t d).2 = some none ∧ (loopBody duration t d).1.r = d.r ∧
      probes (loopBody duration t d).1.trace = probes d.trace := by
  unfold loopBody
  split_ifs with h1 h2
  · simp [probes, List.count_append]
  · simp [probes, List.count_append]
  · rcases h with h | h
    · rw [h] at h1
      rw [Bool.not_eq_true] at h2
      simp [h2] at h1
    · exact absurd h h2

theorem run_cons_continue (duration : ℤ) (t : Tick) (ts : List Tick) (d : Driver)
    (h : (loopBody duration t d).2 = none) :
    unPagingatedList duration (t :: ts) d =
      unPagingatedList duration ts (loopBody duration t d).1 := by
  rw [unPagingatedList]
  split
  · next d' ret heq => rw [heq] at h; cases h
  · next d' heq => rw [heq]

theorem run_cons_return (duration : ℤ) (t : Tick) (ts : List Tick) (d : Driver)
    (ret : Option ProbeError) (h : (loopBody duration t d).2 = some ret) :
    unPagingatedList duration (t :: ts) d = ((loopBody duration t d).1, some ret) := by
  rw [unPagingatedList]
  split
  · next d' ret' heq => rw [heq] at h; cases h; rw [heq]
  · next d' heq => rw [heq] at h; cases h

theorem run_ret (duration : ℤ) (script : List Tick) (d : Driver) :
    (unPagingatedList duration script d).2 = none ∨
      (unPagingatedList duration script d).2 = some none := by
  induction script generalizing d with
  | nil => exact Or.inl rfl
  | cons t ts ih =>
    rcases loopBody_ret duration t d with h | h
    · rw [run_cons_continue duration t ts d h]; exact ih _
    · rw [run_cons_return duration t ts d none h]; exact Or.inr rfl

theorem run_returns_of_signal (duration : ℤ) (script : List Tick) (d : Driver)
    (h : ∃ t ∈ script, t.ctxDone = true ∨ t.stopFired = true) :
    (unPagingatedList duration script d).2 = some none := by
  induction script generalizing d with
  | nil => obtain ⟨t, ht, _⟩ := h; cases ht
  | cons t ts ih =>
    rcases loopBody_ret duration t d with hb | hb
    · rw [run_cons_continue duration t ts d hb]
      apply ih
      obtain ⟨u, hu, hs⟩ := h
      rcases List.mem_cons.mp hu with rfl | hu
      · rw [(loopBody_signal duration u d hs).1] at hb; cases hb
      · exact ⟨u, hu, hs⟩
    · rw [run_cons_return duration t ts d none hb]

theorem run_append_signal (duration : ℤ) (pre : List Tick) (t : Tick) (rest : List Tick)
    (d : Driver) (h : t.ctxDone = true ∨ t.stopFired = true) :
    (unPagingatedList duration (pre ++ t :: rest) d).2 = some none ∧
    (unPagingatedList duration (pre ++ t :: rest) d).1.r =
      (unPagingatedList duration pre d).1.r ∧
    probes (unPagingatedList duration (pre ++ t :: rest) d).1.trace =
      probes (unPagingatedList duration pre d).1.trace := by
  induction pre generalizing d with
  | nil =>
    have hs := loopBody_signal duration t d h
    rw [List.nil_append, run_cons_return duration t rest d none hs.1]
    exact ⟨rfl, hs.2.1, hs.2.2⟩
  | cons p ps ih =>
    rw [List.cons_append]
    rcases loopBody_ret duration p d with hb | hb
    · rw [run_cons_continue duration p _ d hb, run_cons_continue duration p ps d hb]
      exact ih _
    · rw [run_cons_return duration p _ d none hb, run_cons_return duration p ps d none hb]
      exact ⟨rfl, rfl, rfl⟩

theorem loopBody_error (duration : ℤ) (t : Tick) (err : ProbeError) (d : Driver)
    (hc : t.ctxDone = false) (hs : t.stopFired = false) (hr : t.result = .error err) :
    loopBody duration t d =
      ({ r := d.r.IncrementFailureCnt,
         trace := d.trace ++ [.list, .warn (failureMsg err t.took)] }, none) := by
  unfold loopBody
  simp [hc, hs, hr]

/-- C6: a failed probe, whatever the kind of its error, adds one to `failCnt`,
leaves `succeedCnt` and `latency` as they are and lets the loop go on to its next
iteration; `unPagingatedList` never returns a non-nil error, and it does return
(nil) as soon as an iteration finds the context done or the duration over. -/
theorem probe_error_is_counted_and_never_fatal (duration : ℤ) :
    (∀ (t : Tick) (err : ProbeError) (ts : List Tick) (d : Driver),
      t.ctxDone = false → t.stopFired = false → t.result = .error err →
        (loopBody duration t d).1.r.failCnt = d.r.failCnt + 1 ∧
        (loopBody duration t d).1.r.succeedCnt = d.r.succeedCnt ∧
        (loopBody duration t d).1.r.latency = d.r.latency ∧
        (loopBody duration t d).2 = none ∧
        unPagingatedList duration (t :: ts) d =
          unPagingatedList duration ts (loopBody duration t d).1) ∧
    (∀ (script : List Tick) (d : Driver) (err : ProbeError),
      (unPagingatedList duration script d).2 ≠ some (some err)) ∧
    (∀ (script : List Tick) (d : Driver),
      (∃ t ∈ script, t.ctxDone = true ∨ t.stopFired = true) →
        (unPagingatedList duration script d).2 = some none) := by
  refine ⟨?_, ?_, ?_⟩
  · intro t err ts d hc hs hr
    have hb := loopBody_error duration t err d hc hs hr
    refine ⟨?_, ?_, ?_, ?_, ?_⟩
    · rw [hb]; rfl
    · rw [hb]; rfl
    · rw [hb]; rfl
    · rw [hb]
    · exact run_cons_continue duration t ts d (by rw [hb])
  · intro script d err h
    rcases run_ret duration script d with h' | h' <;> rw [h'] at h <;> cases h
  · intro script d h
    exact run_returns_of_signal duration script d h

/-- C6 (witness): a server timeout at the start of a run, and a run of two failed
probes that ends when the duration is over. -/
theorem probe_error_is_counted_and_never_fatal_witness :
    ((loopBody 60 (failingTick ⟨false, true⟩ 7) (start none)).1.r.failCnt
        = (start none).r.failCnt + 1 ∧
      (loopBody 60 (failingTick ⟨false, true⟩ 7) (start none)).1.r.succeedCnt
        = (start none).r.succeedCnt ∧
      (loopBody 60 (failingTick ⟨false, true⟩ 7) (start none)).1.r.latency
        = (start none).r.latency ∧
      (loopBody 60 (failingTick ⟨false, true⟩ 7) (start none)).2 = none ∧
      unPagingatedList 60 [failingTick ⟨false, true⟩ 7] (start none) =
        unPagingatedList 60 [] (loopBody 60 (failingTick ⟨false, true⟩ 7) (start none)).1) ∧
    (unPagingatedList 60
      [failingTick ⟨true, false⟩ 7, failingTick ⟨false, false⟩ 9,
        { ctxDone := false, stopFired := true, pickStop := false, result := .ok 0, took := 0 }]
      (start none)).2 = some none :=
  ⟨(probe_error_is_counted_and_never_fatal 60).1 (failingTick ⟨false, true⟩ 7) ⟨false, true⟩ []
      (start none) rfl rfl rfl,
   (probe_error_is_counted_and_never_fatal 60).2.2 _ (start none)
      ⟨{ ctxDone := false, stopFired := true, pickStop := false, result := .ok 0, took := 0 },
        by simp, Or.inr rfl⟩⟩

/-- C8: when an iteration of `unPagingatedList` begins with the context already
done, the function returns nil there; the statistics and the number of `List` calls
are those reached by the iterations before it, whatever the script holds after. -/
theorem cancelled_returns_without_probe (duration : ℤ) (pre : List Tick) (t : Tick)
    (rest : List Tick) (d : Driver) (h : t.ctxDone = true) :
    (unPagingatedList duration (pre ++ t :: rest) d).2 = some none ∧
    (unPagingatedList duration (pre ++ t :: rest) d).1.r =
      (unPagingatedList duration pre d).1.r ∧
    probes (unPagingatedList duration (pre ++ t :: rest) d).1.trace =
      probes (unPagingatedList duration pre d).1.trace :=
  run_append_signal duration pre t rest d (Or.inl h)

/-- C8 (witness): one successful probe, then an iteration that finds the context
done, with a further successful tick left in the script. -/
theorem cancelled_returns_without_probe_witness :
    (unPagingatedList 60
      ([succeedingTick 3 second] ++
        { ctxDone := true, stopFired := false, pickStop := false, result := .ok 3, took := 1 } ::
        [succeedingTick 3 second]) (start none)).2 = some none ∧
    (unPagingatedList 60
      ([succeedingTick 3 second] ++
        { ctxDone := true, stopFired := false, pickStop := false, result := .ok 3, took := 1 } ::
        [succeedingTick 3 second]) (start none)).1.r =
      (unPagingatedList 60 [succeedingTick 3 second] (start none)).1.r ∧
    probes (unPagingatedList 60
      ([succeedingTick 3 second] ++
        { ctxDone := true, stopFired := false, pickStop := false, result := .ok 3, took := 1 } ::
        [succeedingTick 3 second]) (start none)).1.trace =
      probes (unPagingatedList 60 [succeedingTick 3 second] (start none)).1.trace :=
  cancelled_returns_without_probe 60 [succeedingTick 3 second]
    { ctxDone := true, stopFired := false, pickStop := false, result := .ok 3, took := 1 }
    [succeedingTick 3 second] (start none) rfl

/-- C7 (the code at the failing input): after two failed probes in a row the
actions of the loop are two `List` calls with a warning each and no `time.Sleep`;
after a successful probe the loop does sleep 2 seconds. -/
theorem failed_probe_is_not_followed_by_a_pause :
    (unPagingatedList 60 [failingTick ⟨false, true⟩ 7, failingTick ⟨false, true⟩ 7]
      (start none)).1.trace =
      [.list, .warn (.failTimeout 7), .list, .warn (.failTimeout 7)] ∧
    pausedFrom false (unPagingatedList 60
      [failingTick ⟨false, true⟩ 7, failingTick ⟨false, true⟩ 7] (start none)).1.trace = false ∧
    (unPagingatedList 60 [succeedingTick 3 7, succeedingTick 3 7] (start none)).1.trace =
      [.list, .info (.listCompleted 1 3 7), .sleep 2000000000,
       .list, .info (.listCompleted 2 3 7), .sleep 2000000000] := by
  decide!

theorem latencySample_subsecond (took : ℤ) (h0 : 0 ≤ took) (h1 : took < second) :
    latencySample took = .fin 0 := by
  unfold latencySample Float64.ofInt
  rw [Int.tdiv_eq_zero_of_lt h0 h1, Int.cast_zero, roundF64_zero]

/-- C5 (the code at the failing input): a successful probe that took half a second
is recorded with latency 0, which is not a positive number of seconds. -/
theorem subsecond_latency_is_recorded_as_zero :
    latencySample 500000000 = .fin 0 ∧
    (unPagingatedList 60 [succeedingTick 3 500000000] (start none)).1.r.latency = [.fin 0] ∧
    (latencySample 500000000).gt (.fin 0) = false := by
  decide!

/-! ### The slice after a library call -/

@[simp] theorem Min_input (l : List Float64) : (Stats.Min l).input = l := rfl

@[simp] theorem Max_input (l : List Float64) : (Stats.Max l).input = l := rfl

@[simp] theorem Sum_input (l : List Float64) : (Stats.Sum l).input = l := rfl

@[simp] theorem sortedCopy_input (l : List Float64) : (sortedCopy l).2 = l := rfl

@[simp] theorem Mean_input (l : List Float64) : (Mean l).input = l := by
  unfold Mean
  split_ifs
  · rfl
  · exact Sum_input l

@[simp] theorem Median_input (l : List Float64) : (Median l).input = l := by
  unfold Median
  exact sortedCopy_input l

@[simp] theorem Percentile_input (rule : PercentileRule) (l : List Float64) (p : Float64) :
    (Percentile rule l p).input = l := by
  unfold Percentile
  exact sortedCopy_input l

/-- C9: `Flush` leaves the counters and the latency values, in their order, as
they were: the slice it hands to the library comes back from each of the seven
calls with the elements it had, since `Min`, `Max` and `Mean` only read it and
`Median` and the percentile routine sort a copy.  A second call right after the
first therefore gives the same records. -/
theorem flush_is_pure (rule : PercentileRule) (r : RequestStats) :
    (Flush rule r).r = r ∧ Flush rule (Flush rule r).r = Flush rule r := by
  have h : (Flush rule r).r = r := by
    unfold Flush
    split
    · rfl
    · simp only [LoadRawData, Min_input, Max_input, Median_input, Mean_input, Percentile_input]
      repeat' split
      all_goals rfl
  exact ⟨h, by rw [h]⟩

/-! ### `Flush` on runs without a success -/

theorem failures_state (lg : Option Logger) (n : ℕ) :
    IncrementFailureCnt^[n] (New lg) =
      { lg := lg, failCnt := (n : ℤ), succeedCnt := 0, latency := [] } := by
  induction n with
  | zero => rfl
  | succ n ih =>
    rw [Function.iterate_succ_apply', ih]
    simp [IncrementFailureCnt]

theorem flush_no_latency (rule : PercentileRule) (lg : Logger) (f s : ℤ) :
    Flush rule { lg := some lg, failCnt := f, succeedCnt := s, latency := [] } =
      ⟨{ lg := some lg, failCnt := f, succeedCnt := s, latency := [] },
       [statsEntry { lg := some lg, failCnt := f, succeedCnt := s, latency := [] },
        .failGet .min [] .EmptyInputErr], false⟩ := by
  rfl

theorem div_fin (a b : ℚ) (hb : b ≠ 0) :
    (Float64.fin a).div (.fin b) = .fin (roundF64 (a / b)) := by
  show (if b = 0 then _ else _) = _
  rw [if_neg hb]

theorem mul_fin (a b : ℚ) : (Float64.fin a).mul (.fin b) = .fin (roundF64 (a * b)) := rfl

theorem add_fin (a b : ℚ) : (Float64.fin a).add (.fin b) = .fin (roundF64 (a + b)) := rfl

theorem ratio_all (n : ℤ) (hn : 0 < n) : ratio n n = .fin 100 := by
  have hx : 0 < roundF64 (n : ℚ) := roundF64_pos _ (by exact_mod_cast hn)
  unfold ratio Float64.ofInt
  rw [div_fin _ _ hx.ne', div_self hx.ne', roundF64_one, mul_fin, one_mul, roundF64_hundred]

theorem ratio_none (n : ℤ) (hn : 0 < n) : ratio 0 n = .fin 0 := by
  have hx : 0 < roundF64 (n : ℚ) := roundF64_pos _ (by exact_mod_cast hn)
  unfold ratio Float64.ofInt
  rw [div_fin _ _ hx.ne', Int.cast_zero, roundF64_zero, zero_div, roundF64_zero, mul_fin,
    zero_mul, roundF64_zero]

/-- C3: for every `n ≥ 1`, after `n` calls of `IncrementFailureCnt` on a fresh
`RequestStats` (one that has a logger: without one `Flush` writes nothing), `Flush`
writes the counts with a failure ratio of exactly 100 and a success ratio of 0, then
the warning of `Min` failing on empty input, and no latency record; this whatever
the rule of the percentile routine, which is not reached. -/
theorem flush_failures_only (rule : PercentileRule) (lg : Logger) (n : ℕ) (hn : 1 ≤ n) :
    (Flush rule (IncrementFailureCnt^[n] (New (some lg)))).log =
      [.requestsStats n n (.fin 100) 0 (.fin 0), .failGet .min [] .EmptyInputErr] ∧
    (Flush rule (IncrementFailureCnt^[n] (New (some lg)))).panicked = false := by
  have hpos : (0 : ℤ) < (n : ℤ) := by exact_mod_cast hn
  rw [failures_state, flush_no_latency]
  simp only [statsEntry, add_zero, ratio_all _ hpos, ratio_none _ hpos, and_self]

/-- C3 (witness): three failures, as in the design document. -/
theorem flush_failures_only_witness :
    (Flush .nearestRank (IncrementFailureCnt^[3] (New (some ⟨0⟩)))).log =
      [.requestsStats 3 3 (.fin 100) 0 (.fin 0), .failGet .min [] .EmptyInputErr] ∧
    (Flush .nearestRank (IncrementFailureCnt^[3] (New (some ⟨0⟩)))).panicked = false :=
  flush_failures_only .nearestRank ⟨0⟩ 3 (by decide)

/-- C2 (counterexample): on a fresh `RequestStats` `Flush` writes both ratios as
not-a-number (`0 / 0 * 100`) and then the very warning that it writes after three
failures and no success: `Min` failing with the library error for empty input. -/
theorem flush_fresh_emits_nan_and_same_error :
    (Flush .nearestRank (New (some ⟨0⟩))).log =
      [.requestsStats 0 0 .nan 0 .nan, .failGet .min [] .EmptyInputErr] ∧
    (Flush .linearInterpolation (New (some ⟨0⟩))).log =
      [.requestsStats 0 0 .nan 0 .nan, .failGet .min [] .EmptyInputErr] ∧
    (Flush .nearestRank (IncrementFailureCnt^[3] (New (some ⟨0⟩)))).log =
      [.requestsStats 3 3 (.fin 100) 0 (.fin 0), .failGet .min [] .EmptyInputErr] := by
  decide!

/-- C2 (as amended): on a fresh `RequestStats` with a logger, `Flush` writes the
counts record with total, fail and success count 0 and then stops at `Min` failing
with the library error for empty input; this is the same warning as in a run with
failures only, and no latency record is written. -/
theorem flush_fresh_stops_at_empty_input (rule : PercentileRule) (lg : Logger) (n : ℕ) :
    (Flush rule (New (some lg))).log.map Entry.counts = [some (0, 0, 0), none] ∧
    (Flush rule (New (some lg))).log.getLast? = some (.failGet .min [] .EmptyInputErr) ∧
    (Flush rule (New (some lg))).log.getLast? =
      (Flush rule (IncrementFailureCnt^[n] (New (some lg)))).log.getLast? ∧
    (Flush rule (New (some lg))).log.any Entry.isLatency = false ∧
    (Flush rule (New (some lg))).panicked = false := by
  rw [failures_state]
  unfold New
  rw [flush_no_latency, flush_no_latency]
  simp [statsEntry, Entry.counts, Entry.isLatency]

/-- C4: in the scenario of five successes with latencies 1 to 5 seconds and one
failure, `Flush` writes total 6, fail count 1, success count 5, the failure ratio
`float64(1) / float64(6) * 100` and the success ratio `float64(5) / float64(6) * 100`,
which are `100 / 6` and `500 / 6` rounded to `float64` (16.666666666666664 and
83.33333333333334, each within `10⁻¹³` of the fraction), then min 1, max 5, median
3, mean 3 and p50 3, with p90 and p99 as the percentile routine gives them; p50 is 3
under either rule that the design document names for that routine. -/
theorem known_distribution_report (rule : PercentileRule) :
    (Flush rule (knownDistribution (some ⟨0⟩))).log =
      [.requestsStats 6 1 (.fin (2345624805922133 / 140737488355328)) 5
          (.fin (2932031007402667 / 35184372088832)),
       .latency (.fin 1) (.fin 5) (.fin 3) (.fin 3) (.fin 3)
          (Percentile rule [.fin 1, .fin 2, .fin 3, .fin 4, .fin 5] (.fin 90)).result.value
          (Percentile rule [.fin 1, .fin 2, .fin 3, .fin 4, .fin 5] (.fin 99)).result.value] ∧
    (Percentile rule [.fin 1, .fin 2, .fin 3, .fin 4, .fin 5] (.fin 50)).result
      = .ret (.fin 3) none ∧
    |(2345624805922133 / 140737488355328 : ℚ) - 100 / 6| < 1 / 10 ^ 13 ∧
    |(2932031007402667 / 35184372088832 : ℚ) - 500 / 6| < 1 / 10 ^ 13 := by
  refine ⟨?_, ?_, ?_, ?_⟩
  · cases rule <;> decide!
  · cases rule <;> decide!
  · rw [abs_lt]; constructor <;> norm_num
  · rw [abs_lt]; constructor <;> norm_num

/-! ### Order independence -/

theorem sortLE_fin (a b : ℚ) : sortLE (.fin a) (.fin b) ↔ a ≤ b := by
  simp [sortLE, sortLess, Float64.lt, Float64.isNaN]

theorem sortLE_total (x y : Float64) : sortLE x y ∨ sortLE y x := by
  rcases x with _ | s | a <;> rcases y with _ | t | b
  all_goals try (cases s)
  all_goals try (cases t)
  all_goals simp [sortLE, sortLess, Float64.lt, Float64.isNaN]
  exact le_total a b

theorem sortLE_trans (x y z : Float64) (h1 : sortLE x y) (h2 : sortLE y z) : sortLE x z := by
  rcases x with _ | s | a <;> rcases y with _ | t | b <;> rcases z with _ | u | c
  all_goals try (cases s)
  all_goals try (cases t)
  all_goals try (cases u)
  all_goals simp [sortLE, sortLess, Float64.lt, Float64.isNaN] at h1 h2 ⊢
  exact le_trans h1 h2

theorem sortLE_antisymm (x y : Float64) (h1 : sortLE x y) (h2 : sortLE y x) : x = y := by
  rcases x with _ | s | a <;> rcases y with _ | t | b
  all_goals try (cases s)
  all_goals try (cases t)
  all_goals simp [sortLE, sortLess, Float64.lt, Float64.isNaN] at h1 h2 ⊢
  exact le_antisymm h1 h2

instance : IsTotal Float64 sortLE := ⟨sortLE_total⟩

instance : IsTrans Float64 sortLE := ⟨sortLE_trans⟩

instance : IsAntisymm Float64 sortLE := ⟨sortLE_antisymm⟩

theorem sortedCopy_perm (l₁ l₂ : List Float64) (h : l₁.Perm l₂) :
    (sortedCopy l₁).1 = (sortedCopy l₂).1 := by
  unfold sortedCopy copyslice sortFloat64s
  exact List.eq_of_perm_of_sorted
    (((List.perm_insertionSort sortLE l₁).trans h).trans (List.perm_insertionSort sortLE l₂).symm)
    (List.sorted_insertionSort sortLE l₁) (List.sorted_insertionSort sortLE l₂)

theorem Median_perm (l₁ l₂ : List Float64) (h : l₁.Perm l₂) :
    (Median l₁).result = (Median l₂).result := by
  unfold Median
  rw [sortedCopy_perm l₁ l₂ h]

theorem Percentile_perm (rule : PercentileRule) (l₁ l₂ : List Float64) (h : l₁.Perm l₂)
    (p : Float64) : (Percentile rule l₁ p).result = (Percentile rule l₂ p).result := by
  unfold Percentile
  rw [sortedCopy_perm l₁ l₂ h, h.length_eq]

theorem foldl_min_fin (xs : List Float64) (q : ℚ) (hfin : ∀ v ∈ xs, ∃ a, v = Float64.fin a) :
    ∃ m, xs.foldl (fun m v => if v.lt m then v else m) (.fin q) = .fin m ∧
      Float64.fin m ∈ Float64.fin q :: xs ∧ ∀ a, Float64.fin a ∈ Float64.fin q :: xs → m ≤ a := by
  induction xs generalizing q with
  | nil =>
    refine ⟨q, rfl, List.mem_singleton.mpr rfl, ?_⟩
    intro a ha
    rw [List.mem_singleton] at ha
    cases ha
    exact le_rfl
  | cons v vs ih =>
    obtain ⟨a, rfl⟩ := hfin v (List.mem_cons_self _ _)
    have hstep : (if (Float64.fin a).lt (.fin q) then Float64.fin a else Float64.fin q) =
        Float64.fin (if a < q then a else q) := by
      by_cases h : a < q <;> simp [Float64.lt, h]
    obtain ⟨m, hm, hmem, hle⟩ := ih (if a < q then a else q)
      (fun w hw => hfin w (List.mem_cons_of_mem _ hw))
    refine ⟨m, ?_, ?_, ?_⟩
    · rw [List.foldl_cons, hstep, hm]
    · rcases List.mem_cons.mp hmem with h | h
      · by_cases hq : a < q
        · rw [if_pos hq] at h; rw [h]; simp
        · rw [if_neg hq] at h; rw [h]; simp
      · exact List.mem_cons_of_mem _ (List.mem_cons_of_mem _ h)
    · intro b hb
      have hq' : m ≤ (if a < q then a else q) := hle _ (List.mem_cons_self _ _)
      rcases List.mem_cons.mp hb with h | h
      · cases h
        by_cases hq : a < q
        · rw [if_pos hq] at hq'; exact hq'.trans hq.le
        · rw [if_neg hq] at hq'; exact hq'
      · rcases List.mem_cons.mp h with h | h
        · cases h
          by_cases hq : a < q
          · rw [if_pos hq] at hq'; exact hq'
          · rw [if_neg hq] at hq'; exact hq'.trans (not_lt.mp hq)
        · exact hle b (List.mem_cons_of_mem _ h)

theorem foldl_max_fin (xs : List Float64) (q : ℚ) (hfin : ∀ v ∈ xs, ∃ a, v = Float64.fin a) :
    ∃ m, xs.foldl (fun m v => if v.gt m then v else m) (.fin q) = .fin m ∧
      Float64.fin m ∈ Float64.fin q :: xs ∧ ∀ a, Float64.fin a ∈ Float64.fin q :: xs → a ≤ m := by
  induction xs generalizing q with
  | nil =>
    refine ⟨q, rfl, List.mem_singleton.mpr rfl, ?_⟩
    intro a ha
    rw [List.mem_singleton] at ha
    cases ha
    exact le_rfl
  | cons v vs ih =>
    obtain ⟨a, rfl⟩ := hfin v (List.mem_cons_self _ _)
    have hstep : (if (Float64.fin a).gt (.fin q) then Float64.fin a else Float64.fin q) =
        Float64.fin (if q < a then a else q) := by
      by_cases h : q < a <;> simp [Float64.gt, Float64.lt, h]
    obtain ⟨m, hm, hmem, hle⟩ := ih (if q < a then a else q)
      (fun w hw => hfin w (List.mem_cons_of_mem _ hw))
    refine ⟨m, ?_, ?_, ?_⟩
    · rw [List.foldl_cons, hstep, hm]
    · rcases List.mem_cons.mp hmem with h | h
      · by_cases hq : q < a
        · rw [if_pos hq] at h; rw [h]; simp
        · rw [if_neg hq] at h; rw [h]; simp
      · exact List.mem_cons_of_mem _ (List.mem_cons_of_mem _ h)
    · intro b hb
      have hq' : (if q < a then a else q) ≤ m := hle _ (List.mem_cons_self _ _)
      rcases List.mem_cons.mp hb with h | h
      · cases h
        by_cases hq : q < a
        · rw [if_pos hq] at hq'; exact hq.le.trans hq'
        · rw [if_neg hq] at hq'; exact hq'
      · rcases List.mem_cons.mp h with h | h
        · cases h
          by_cases hq : q < a
          · rw [if_pos hq] at hq'; exact hq'
          · rw [if_neg hq] at hq'; exact (not_lt.mp hq).trans hq'
        · exact hle b (List.mem_cons_of_mem _ h)

theorem Min_spec (l : List Float64) (hne : l ≠ []) (hfin : ∀ v ∈ l, ∃ a, v = Float64.fin a) :
    ∃ m, (Stats.Min l).result = .ret (.fin m) none ∧ Float64.fin m ∈ l ∧ ∀ a, Float64.fin a ∈ l → m ≤ a := by
  cases l with
  | nil => exact absurd rfl hne
  | cons x xs =>
    obtain ⟨q, rfl⟩ := hfin x (List.mem_cons_self _ _)
    obtain ⟨m, hm, hmem, hle⟩ := foldl_min_fin xs q (fun w hw => hfin w (List.mem_cons_of_mem _ hw))
    exact ⟨m, by simp only [Stats.Min, hm], hmem, hle⟩

theorem Max_spec (l : List Float64) (hne : l ≠ []) (hfin : ∀ v ∈ l, ∃ a, v = Float64.fin a) :
    ∃ m, (Stats.Max l).result = .ret (.fin m) none ∧ Float64.fin m ∈ l ∧ ∀ a, Float64.fin a ∈ l → a ≤ m := by
  cases l with
  | nil => exact absurd rfl hne
  | cons x xs =>
    obtain ⟨q, rfl⟩ := hfin x (List.mem_cons_self _ _)
    obtain ⟨m, hm, hmem, hle⟩ := foldl_max_fin xs q (fun w hw => hfin w (List.mem_cons_of_mem _ hw))
    exact ⟨m, by simp only [Stats.Max, hm], hmem, hle⟩

theorem Min_perm (l₁ l₂ : List Float64) (h : l₁.Perm l₂)
    (hfin : ∀ v ∈ l₁, ∃ a, v = Float64.fin a) :
    (Stats.Min l₁).result = (Stats.Min l₂).result := by
  by_cases hne : l₁ = []
  · subst hne
    rw [List.nil_perm] at h
    rw [h]
  · have hne2 : l₂ ≠ [] := fun h2 => hne (by rw [h2, List.perm_nil] at h; exact h)
    have hfin2 : ∀ v ∈ l₂, ∃ a, v = Float64.fin a := fun v hv => hfin v (h.mem_iff.mpr hv)
    obtain ⟨m₁, e₁, mem₁, le₁⟩ := Min_spec l₁ hne hfin
    obtain ⟨m₂, e₂, mem₂, le₂⟩ := Min_spec l₂ hne2 hfin2
    have : m₁ = m₂ := le_antisymm (le₁ _ (h.mem_iff.mpr mem₂)) (le₂ _ (h.mem_iff.mp mem₁))
    rw [e₁, e₂, this]

theorem Max_perm (l₁ l₂ : List Float64) (h : l₁.Perm l₂)
    (hfin : ∀ v ∈ l₁, ∃ a, v = Float64.fin a) :
    (Stats.Max l₁).result = (Stats.Max l₂).result := by
  by_cases hne : l₁ = []
  · subst hne
    rw [List.nil_perm] at h
    rw [h]
  · have hne2 : l₂ ≠ [] := fun h2 => hne (by rw [h2, List.perm_nil] at h; exact h)
    have hfin2 : ∀ v ∈ l₂, ∃ a, v = Float64.fin a := fun v hv => hfin v (h.mem_iff.mpr hv)
    obtain ⟨m₁, e₁, mem₁, le₁⟩ := Max_spec l₁ hne hfin
    obtain ⟨m₂, e₂, mem₂, le₂⟩ := Max_spec l₂ hne2 hfin2
    have : m₁ = m₂ := le_antisymm (le₂ _ (h.mem_iff.mp mem₁)) (le₁ _ (h.mem_iff.mpr mem₂))
    rw [e₁, e₂, this]

theorem foldl_add_whole (ks : List ℕ) (acc : ℕ) (h : acc + ks.sum ≤ 2 ^ 53) :
    (ks.map (fun k : ℕ => Float64.fin (k : ℚ))).foldl Float64.add (.fin (acc : ℚ)) =
      .fin ((acc + ks.sum : ℕ) : ℚ) := by
  induction ks generalizing acc with
  | nil => simp
  | cons k ks ih =>
    rw [List.sum_cons] at h
    rw [List.map_cons, List.foldl_cons, add_fin]
    have hk : roundF64 ((acc : ℚ) + (k : ℚ)) = ((acc + k : ℕ) : ℚ) := by
      rw [← Nat.cast_add]
      exact roundF64_natCast (acc + k) (by omega)
    rw [hk, ih (acc + k) (by omega), List.sum_cons]
    congr 2
    omega

theorem Mean_whole (ks : List ℕ) (h : ks.sum ≤ 2 ^ 53) :
    (Mean (ks.map (fun k : ℕ => Float64.fin (k : ℚ)))).result =
      if ks.length = 0 then .ret .nan (some .EmptyInputErr)
      else .ret ((Float64.fin (ks.sum : ℚ)).div (Float64.ofInt ks.length)) none := by
  have hfold := foldl_add_whole ks 0 (by omega)
  rw [Nat.cast_zero, Nat.zero_add] at hfold
  unfold Mean
  rw [List.length_map]
  split_ifs with h0
  · rfl
  · have hs : (Stats.Sum (ks.map (fun k : ℕ => Float64.fin (k : ℚ)))).result =
        .ret (.fin (ks.sum : ℚ)) none := by
      unfold Stats.Sum
      simp only [List.length_map, if_neg h0, hfold]
    simp only [hs, Sum_input, Result.value, List.length_map]

theorem whole_map_wholeSeconds (l : List Float64)
    (h : ∀ v ∈ l, ∃ k : ℕ, v = Float64.fin (k : ℚ)) :
    (l.map wholeSeconds).map (fun k : ℕ => Float64.fin (k : ℚ)) = l := by
  rw [List.map_map]
  conv_rhs => rw [← List.map_id l]
  apply List.map_congr_left
  intro v hv
  obtain ⟨k, rfl⟩ := h v hv
  simp [wholeSeconds]

theorem Mean_perm_whole (l₁ l₂ : List Float64) (h : l₁.Perm l₂) (ks : List ℕ)
    (hks : l₁ = ks.map (fun k : ℕ => Float64.fin (k : ℚ))) (hsum : ks.sum ≤ 2 ^ 53) :
    (Mean l₁).result = (Mean l₂).result := by
  have hw₁ : ∀ v ∈ l₁, ∃ k : ℕ, v = Float64.fin (k : ℚ) := by
    intro v hv
    rw [hks, List.mem_map] at hv
    obtain ⟨k, _, rfl⟩ := hv
    exact ⟨k, rfl⟩
  have hw₂ : ∀ v ∈ l₂, ∃ k : ℕ, v = Float64.fin (k : ℚ) :=
    fun v hv => hw₁ v (h.mem_iff.mpr hv)
  have hp : (l₁.map wholeSeconds).Perm (l₂.map wholeSeconds) := h.map _
  have hs : (l₁.map wholeSeconds).sum = (l₂.map wholeSeconds).sum := hp.sum_eq
  have hk₁ : l₁.map wholeSeconds = ks := by
    rw [hks, List.map_map]
    conv_rhs => rw [← List.map_id ks]
    apply List.map_congr_left
    intro k _
    simp [wholeSeconds]
  have hlen : (l₁.map wholeSeconds).length = (l₂.map wholeSeconds).length := hp.length_eq
  rw [← whole_map_wholeSeconds l₁ hw₁, ← whole_map_wholeSeconds l₂ hw₂,
    Mean_whole _ (by rw [hk₁]; exact hsum), Mean_whole _ (by rw [← hs, hk₁]; exact hsum),
    hs, hlen]

theorem record_fields (ops : List Op) (r : RequestStats) :
    (record ops r).lg = r.lg ∧
    (record ops r).failCnt = r.failCnt + (ops.count .incFailure : ℕ) ∧
    (record ops r).succeedCnt = r.succeedCnt + (ops.count .incSuccess : ℕ) ∧
    (record ops r).latency = r.latency ++ added ops := by
  induction ops generalizing r with
  | nil => simp [record, added]
  | cons op ops ih =>
    have h := ih (applyOp r op)
    unfold record at h ⊢
    rw [List.foldl_cons]
    obtain ⟨h1, h2, h3, h4⟩ := h
    cases op with
    | add data =>
      refine ⟨h1, ?_, ?_, ?_⟩
      · rw [h2]; simp [applyOp, RequestStats.Add]
      · rw [h3]; simp [applyOp, RequestStats.Add]
      · rw [h4]; simp [applyOp, RequestStats.Add, added]
    | incSuccess =>
      refine ⟨h1, ?_, ?_, ?_⟩
      · rw [h2]; simp [applyOp, IncrementSuccessCnt]
      · rw [h3]; simp [applyOp, IncrementSuccessCnt]; ring
      · rw [h4]; simp [applyOp, IncrementSuccessCnt, added]
    | incFailure =>
      refine ⟨h1, ?_, ?_, ?_⟩
      · rw [h2]; simp [applyOp, IncrementFailureCnt]; ring
      · rw [h3]; simp [applyOp, IncrementFailureCnt]
      · rw [h4]; simp [applyOp, IncrementFailureCnt, added]

theorem Mean_nonempty (l : List Float64) (h : l ≠ []) :
    ∃ v, (Mean l).result = .ret v none := by
  unfold Mean
  rw [if_neg (by simpa using h)]
  exact ⟨_, rfl⟩

theorem flush_figures_congr (rule : PercentileRule) (w : Bool) (r₁ r₂ : RequestStats)
    (hlg : r₁.lg = r₂.lg) (he : statsEntry r₁ = statsEntry r₂)
    (hmin : (Stats.Min r₁.latency).result = (Stats.Min r₂.latency).result)
    (hmax : (Stats.Max r₁.latency).result = (Stats.Max r₂.latency).result)
    (hmed : (Median r₁.latency).result = (Median r₂.latency).result)
    (hmean : ∃ v₁ v₂, (Mean r₁.latency).result = .ret v₁ none ∧
      (Mean r₂.latency).result = .ret v₂ none ∧ (w = true → v₁ = v₂))
    (hpct : ∀ p, (Percentile rule r₁.latency p).result = (Percentile rule r₂.latency p).result) :
    (Flush rule r₁).log.map (Entry.figures w) = (Flush rule r₂).log.map (Entry.figures w) ∧
    (Flush rule r₁).panicked = (Flush rule r₂).panicked := by
  obtain ⟨v₁, v₂, hv₁, hv₂, hv⟩ := hmean
  unfold Flush
  rw [← hlg]
  cases r₁.lg with
  | none => exact ⟨rfl, rfl⟩
  | some lg =>
    simp only [LoadRawData, Min_input, Max_input, Median_input, Mean_input, Percentile_input]
    rw [← he, ← hmin, ← hmax, ← hmed, ← hpct, ← hpct, ← hpct, hv₁, hv₂]
    generalize (Stats.Min r₁.latency).result = a
    generalize (Stats.Max r₁.latency).result = b
    generalize (Median r₁.latency).result = c
    generalize (Percentile rule r₁.latency (.fin 50)).result = x
    generalize (Percentile rule r₁.latency (.fin 90)).result = y
    generalize (Percentile rule r₁.latency (.fin 99)).result = z
    rcases a with ⟨_, _ | _⟩ | _ <;> try exact ⟨rfl, rfl⟩
    rcases b with ⟨_, _ | _⟩ | _ <;> try exact ⟨rfl, rfl⟩
    rcases c with ⟨_, _ | _⟩ | _ <;> try exact ⟨rfl, rfl⟩
    rcases x with ⟨_, _ | _⟩ | _ <;> try exact ⟨rfl, rfl⟩
    rcases y with ⟨_, _ | _⟩ | _ <;> try exact ⟨rfl, rfl⟩
    rcases z with ⟨_, _ | _⟩ | _ <;> try exact ⟨rfl, rfl⟩
    refine ⟨?_, rfl⟩
    cases w with
    | false => rfl
    | true => rw [hv rfl]

/-- C10 (counterexample): the latencies 0.1, 0.2 and 0.3 recorded in this order and
in the opposite order, with no failure: the same values, yet `Flush` writes the mean
0.20000000000000004 for the first order and 0.19999999999999998 for the second,
because the sum is accumulated in `float64` from left to right.  (And `Min` of a
not-a-number and 1 is the one that comes first, no comparison with not-a-number
being true.) -/
theorem mean_depends_on_recording_order :
    (added [.incSuccess, .add threeTenths, .incSuccess, .add twoTenths, .incSuccess, .add tenth]).Perm
      (added [.incSuccess, .add tenth, .incSuccess, .add twoTenths, .incSuccess, .add threeTenths]) ∧
    (Flush .nearestRank (record
      [.incSuccess, .add tenth, .incSuccess, .add twoTenths, .incSuccess, .add threeTenths]
      (New (some ⟨0⟩)))).log.filterMap Entry.mean
      = [.fin (7205759403792795 / 36028797018963968)] ∧
    (Flush .nearestRank (record
      [.incSuccess, .add threeTenths, .incSuccess, .add twoTenths, .incSuccess, .add tenth]
      (New (some ⟨0⟩)))).log.filterMap Entry.mean
      = [.fin (7205759403792793 / 36028797018963968)] ∧
    Float64.eq (.fin (7205759403792795 / 36028797018963968))
      (.fin (7205759403792793 / 36028797018963968)) = false ∧
    (Stats.Min [.nan, .fin 1]).result = .ret .nan none ∧
    (Stats.Min [.fin 1, .nan]).result = .ret (.fin 1) none := by
  refine ⟨?_, by decide!, by decide!, by decide!, by decide!, by decide!⟩
  exact List.reverse_perm [tenth, twoTenths, threeTenths]

/-- C10 (as amended): take two recording sequences on fresh `RequestStats` with the
same number of `IncrementFailureCnt` calls, the same number of `IncrementSuccessCnt`
calls and the same added latencies up to order, the latencies finite and positive.
Then the records that `Flush` writes for the two carry the same figures, the mean
apart: the same counts and ratios, the same min, max, median, p50, p90 and p99, or
the same failure.  When the latencies are whole numbers of seconds whose total is at
most `2 ^ 53`, as are the positive values that the loop records, the mean is the
same too. -/
theorem flush_figures_order_independent (rule : PercentileRule) (lg : Option Logger)
    (ops₁ ops₂ : List Op)
    (hf : ops₁.count .incFailure = ops₂.count .incFailure)
    (hs : ops₁.count .incSuccess = ops₂.count .incSuccess)
    (hp : (added ops₁).Perm (added ops₂))
    (hpos : ∀ v ∈ added ops₁, ∃ a : ℚ, 0 < a ∧ v = Float64.fin a) :
    ((Flush rule (record ops₁ (New lg))).log.map (Entry.figures false) =
        (Flush rule (record ops₂ (New lg))).log.map (Entry.figures false) ∧
      (Flush rule (record ops₁ (New lg))).panicked =
        (Flush rule (record ops₂ (New lg))).panicked) ∧
    ((∃ ks : List ℕ, added ops₁ = ks.map (fun k : ℕ => Float64.fin (k : ℚ)) ∧ ks.sum ≤ 2 ^ 53) →
      (Flush rule (record ops₁ (New lg))).log.map (Entry.figures true) =
        (Flush rule (record ops₂ (New lg))).log.map (Entry.figures true)) := by
  obtain ⟨g₁, f₁, s₁, l₁⟩ := record_fields ops₁ (New lg)
  obtain ⟨g₂, f₂, s₂, l₂⟩ := record_fields ops₂ (New lg)
  have hl₁ : (record ops₁ (New lg)).latency = added ops₁ := by rw [l₁]; rfl
  have hl₂ : (record ops₂ (New lg)).latency = added ops₂ := by rw [l₂]; rfl
  have hfin : ∀ v ∈ added ops₁, ∃ a, v = Float64.fin a := by
    intro v hv
    obtain ⟨a, _, rfl⟩ := hpos v hv
    exact ⟨a, rfl⟩
  have hlg : (record ops₁ (New lg)).lg = (record ops₂ (New lg)).lg := by rw [g₁, g₂]
  have he : statsEntry (record ops₁ (New lg)) = statsEntry (record ops₂ (New lg)) := by
    unfold statsEntry
    rw [f₁, f₂, s₁, s₂, hf, hs]
  by_cases hne : added ops₁ = []
  · have hne₂ : added ops₂ = [] := by
      rw [hne, List.nil_perm] at hp
      exact hp
    have hr : record ops₁ (New lg) = record ops₂ (New lg) := by
      cases h₁ : record ops₁ (New lg)
      cases h₂ : record ops₂ (New lg)
      rw [h₁] at g₁ f₁ s₁ hl₁
      rw [h₂] at g₂ f₂ s₂ hl₂
      simp only at g₁ f₁ s₁ hl₁ g₂ f₂ s₂ hl₂
      rw [g₁, g₂, f₁, f₂, s₁, s₂, hl₁, hl₂, hne, hne₂, hf, hs]
    rw [hr]
    exact ⟨⟨rfl, rfl⟩, fun _ => rfl⟩
  · have hne₂ : added ops₂ ≠ [] := fun h => hne (by rw [h, List.perm_nil] at hp; exact hp)
    have hmin : (Stats.Min (record ops₁ (New lg)).latency).result =
        (Stats.Min (record ops₂ (New lg)).latency).result := by
      rw [hl₁, hl₂]; exact Min_perm _ _ hp hfin
    have hmax : (Stats.Max (record ops₁ (New lg)).latency).result =
        (Stats.Max (record ops₂ (New lg)).latency).result := by
      rw [hl₁, hl₂]; exact Max_perm _ _ hp hfin
    have hmed : (Median (record ops₁ (New lg)).latency).result =
        (Median (record ops₂ (New lg)).latency).result := by
      rw [hl₁, hl₂]; exact Median_perm _ _ hp
    have hpct : ∀ p, (Percentile rule (record ops₁ (New lg)).latency p).result =
        (Percentile rule (record ops₂ (New lg)).latency p).result := by
      intro p; rw [hl₁, hl₂]; exact Percentile_perm rule _ _ hp p
    obtain ⟨v₁, hv₁⟩ := Mean_nonempty (added ops₁) hne
    obtain ⟨v₂, hv₂⟩ := Mean_nonempty (added ops₂) hne₂
    rw [← hl₁] at hv₁
    rw [← hl₂] at hv₂
    refine ⟨?_, ?_⟩
    · exact flush_figures_congr rule false _ _ hlg he hmin hmax hmed
        ⟨v₁, v₂, hv₁, hv₂, fun h => Bool.noConfusion h⟩ hpct
    · rintro ⟨ks, hks, hsum⟩
      have hm := Mean_perm_whole _ _ hp ks hks hsum
      rw [← hl₁, ← hl₂, hv₁, hv₂] at hm
      have hv : v₁ = v₂ := by injection hm
      exact (flush_figures_congr rule true _ _ hlg he hmin hmax hmed
        ⟨v₁, v₂, hv₁, hv₂, fun _ => hv⟩ hpct).1

/-- C10 (witness): a success of 1 second, a failure and a success of 2 seconds,
against the two successes in the other order followed by the failure. -/
theorem flush_figures_order_independent_witness :
    ((Flush .nearestRank (record
          [.incSuccess, .add (.fin 1), .incFailure, .incSuccess, .add (.fin 2)]
          (New (some ⟨0⟩)))).log.map (Entry.figures false) =
        (Flush .nearestRank (record
          [.incSuccess, .add (.fin 2), .incSuccess, .add (.fin 1), .incFailure]
          (New (some ⟨0⟩)))).log.map (Entry.figures false) ∧
      (Flush .nearestRank (record
          [.incSuccess, .add (.fin 1), .incFailure, .incSuccess, .add (.fin 2)]
          (New (some ⟨0⟩)))).panicked =
        (Flush .nearestRank (record
          [.incSuccess, .add (.fin 2), .incSuccess, .add (.fin 1), .incFailure]
          (New (some ⟨0⟩)))).panicked) ∧
    (Flush .nearestRank (record
        [.incSuccess, .add (.fin 1), .incFailure, .incSuccess, .add (.fin 2)]
        (New (some ⟨0⟩)))).log.map (Entry.figures true) =
      (Flush .nearestRank (record
        [.incSuccess, .add (.fin 2), .incSuccess, .add (.fin 1), .incFailure]
        (New (some ⟨0⟩)))).log.map (Entry.figures true) :=
  ⟨(flush_figures_order_independent .nearestRank (some ⟨0⟩)
      [.incSuccess, .add (.fin 1), .incFailure, .incSuccess, .add (.fin 2)]
      [.incSuccess, .add (.fin 2), .incSuccess, .add (.fin 1), .incFailure]
      (by decide) (by decide) (List.Perm.swap _ _ _)
      (by
        intro v hv
        simp only [added, List.mem_cons, List.mem_singleton, List.not_mem_nil, or_false] at hv
        rcases hv with rfl | rfl
        · exact ⟨1, by norm_num, rfl⟩
        · exact ⟨2, by norm_num, rfl⟩)).1,
   (flush_figures_order_independent .nearestRank (some ⟨0⟩)
      [.incSuccess, .add (.fin 1), .incFailure, .incSuccess, .add (.fin 2)]
      [.incSuccess, .add (.fin 2), .incSuccess, .add (.fin 1), .incFailure]
      (by decide) (by decide) (List.Perm.swap _ _ _)
      (by
        intro v hv
        simp only [added, List.mem_cons, List.mem_singleton, List.not_mem_nil, or_false] at hv
        rcases hv with rfl | rfl
        · exact ⟨1, by norm_num, rfl⟩
        · exact ⟨2, by norm_num, rfl⟩)).2
      ⟨[1, 2], by simp [added], by norm_num⟩⟩

end K8sIssues
